import Mathlib

/-!
Shallow embedding of `src/expr.hpp` (dsl2-calculator): expression trees,
the evaluating visitor, the printing visitor and the symbol table.

Modelling decisions:
* `double` is modelled as `ℚ`.  The claims under study depend only on
  exact comparisons (`second == 0`), arithmetic identities and error
  propagation, none of which involve rounding.  IEEE `-0.0` compares
  equal to `0.0`, which the model reflects by identifying the two.
* The C++ evaluator signals division by zero with
  `throw std::logic_error{"division by zero"}`; the model threads the
  state explicitly and returns `Except eval_error ℚ × state_t`, so side
  effects performed before a throw remain visible, exactly as with a
  C++ reference parameter.
* The `switch` statements in `eval_visitor_t::visit(unary_t)` and
  `visit(binary_t)` have no `default:` case; for an unhandled tag
  control falls off the end of a value-returning function.  The model
  makes that outcome the distinct token `eval_error.unhandledTag`
  (the operands are not visited in that case, matching the code, where
  the `switch` runs before any recursive `visit`).
* For `plus`/`minus`/`mul` the source computes
  `visit(m_first) ⊙ visit(m_second)`; the model fixes the left-then-
  right order (the order the spec asserts).  For `div` the source
  explicitly sequences `auto second = visit(node.m_second);` before
  the zero test and `visit(node.m_first)`, so the model evaluates the
  right operand first there.
-/

/-- `state_t = std::vector<double>`: the environment, one slot per variable. -/
abbrev state_t : Type := List ℚ

/-- `enum class operation_t`. -/
inductive operation_t where
  | assign
  | plus
  | minus
  | mul
  | div
deriving DecidableEq, Repr

/-- `struct variable_t`: a reference to an environment slot, `m_id` its index. -/
structure variable_t where
  m_id : Nat
deriving DecidableEq, Repr

/-- The closed sum of node shapes of `expr.hpp`: `constant_t`, `variable_t`,
`unary_t`, `binary_t`, `assign_t`.  The C++ encodes the shapes as templates
over a CRTP base; an `assign_t` statically restricts its first operand to
`variable_t`, which the `assign` constructor reflects. -/
inductive expr where
  | constant (m_value : ℚ)
  | var (m_id : Nat)
  | unary (m_operation : operation_t) (m_value : expr)
  | binary (m_operation : operation_t) (m_first m_second : expr)
  | assign (m_operation : operation_t) (m_first : variable_t) (m_second : expr)
deriving DecidableEq, Repr

/-- Runtime failures of the evaluator: `divisionByZero` models
`throw std::logic_error{"division by zero"}`; `unhandledTag` models control
falling off the end of a `switch` with no matching case. -/
inductive eval_error where
  | divisionByZero
  | unhandledTag
deriving DecidableEq, Repr

/-- `eval_visitor_t::visit`, all overloads merged into one recursive
function.  The state is threaded explicitly: the pair's second component is
the environment after the call, also when an error is raised (matching the
C++ reference parameter, through which earlier side effects survive a
throw).  Out-of-range variable ids read `0` (the source guarantees by
construction that ids minted by the owning `symbol_table_t` are in range). -/
def eval : expr → state_t → Except eval_error ℚ × state_t
  | .constant v, s => (.ok v, s)
  | .var id, s => (.ok (s.getD id 0), s)
  | .unary op e, s =>
    match op with
    | .plus => eval e s
    | .minus =>
      match eval e s with
      | (.ok v, s₁) => (.ok (-v), s₁)
      | (.error err, s₁) => (.error err, s₁)
    | _ => (.error .unhandledTag, s)
  | .binary op l r, s =>
    match op with
    | .plus =>
      match eval l s with
      | (.error err, s₁) => (.error err, s₁)
      | (.ok vl, s₁) =>
        match eval r s₁ with
        | (.error err, s₂) => (.error err, s₂)
        | (.ok vr, s₂) => (.ok (vl + vr), s₂)
    | .minus =>
      match eval l s with
      | (.error err, s₁) => (.error err, s₁)
      | (.ok vl, s₁) =>
        match eval r s₁ with
        | (.error err, s₂) => (.error err, s₂)
        | (.ok vr, s₂) => (.ok (vl - vr), s₂)
    | .mul =>
      match eval l s with
      | (.error err, s₁) => (.error err, s₁)
      | (.ok vl, s₁) =>
        match eval r s₁ with
        | (.error err, s₂) => (.error err, s₂)
        | (.ok vr, s₂) => (.ok (vl * vr), s₂)
    | .div =>
      match eval r s with
      | (.error err, s₁) => (.error err, s₁)
      | (.ok vr, s₁) =>
        if vr = 0 then (.error .divisionByZero, s₁)
        else
          match eval l s₁ with
          | (.error err, s₂) => (.error err, s₂)
          | (.ok vl, s₂) => (.ok (vl / vr), s₂)
    | .assign => (.error .unhandledTag, s)
  | .assign op tgt e, s =>
    match eval e s with
    | (.error err, s₁) => (.error err, s₁)
    | (.ok v, s₁) =>
      let cur := s₁.getD tgt.m_id 0
      let nv : ℚ :=
        match op with
        | .assign => v
        | .plus => cur + v
        | .minus => cur - v
        | .mul => cur * v
        | .div => cur / v
      (.ok nv, s₁.set tgt.m_id nv)

/-- The value component of an evaluation (what `operator()` returns). -/
def evalV (e : expr) (s : state_t) : Except eval_error ℚ :=
  (eval e s).1

/-- `true` iff the tree contains no `assign_t` node. -/
def noAssign : expr → Bool
  | .constant _ => true
  | .var _ => true
  | .unary _ e => noAssign e
  | .binary _ l r => noAssign l && noAssign r
  | .assign _ _ _ => false

/-- `true` iff every `unary_t` in the tree carries `plus` or `minus` and
every `binary_t` carries one of the four arithmetic tags — exactly the tags
the builder operators (`+a`, `-a`, `a+b`, …) mint, and exactly the cases the
evaluator's `switch` statements handle. -/
def wellTagged : expr → Bool
  | .constant _ => true
  | .var _ => true
  | .unary op e =>
    (match op with
     | .plus => true
     | .minus => true
     | _ => false) && wellTagged e
  | .binary op l r =>
    (match op with
     | .assign => false
     | _ => true) && wellTagged l && wellTagged r
  | .assign _ _ e => wellTagged e

/-- The unary `operator+` builder: mints a `unary_t` tagged `plus`. -/
def unary_plus (e : expr) : expr := .unary .plus e

/-- The unary `operator-` builder: mints a `unary_t` tagged `minus`. -/
def unary_minus (e : expr) : expr := .unary .minus e

/-- Modelled from the spec: the claimed left-then-right evaluation order of
a `Binary` node — evaluate `l`, then `r` in the environment `l` left, then
apply the operator (with the zero test on `r`'s value for `div`). -/
def seqLR (op : operation_t) (l r : expr) (s : state_t) :
    Except eval_error ℚ × state_t :=
  match eval l s with
  | (.error err, s₁) => (.error err, s₁)
  | (.ok vl, s₁) =>
    match eval r s₁ with
    | (.error err, s₂) => (.error err, s₂)
    | (.ok vr, s₂) =>
      match op with
      | .plus => (.ok (vl + vr), s₂)
      | .minus => (.ok (vl - vr), s₂)
      | .mul => (.ok (vl * vr), s₂)
      | .div =>
        if vr = 0 then (.error .divisionByZero, s₂) else (.ok (vl / vr), s₂)
      | .assign => (.error .unhandledTag, s₂)

/-- `struct symbol_table_t`: the variable names and the environment,
index-aligned. -/
structure symbol_table_t where
  m_names : List String
  m_state : state_t
deriving DecidableEq, Repr

/-- `symbol_table_t::variable` (named `newVariable` because `variable` is a
Lean keyword): allocate the next index, append name and initial value,
return the `variable_t` carrying the new index together with the grown
table. -/
def symbol_table_t.newVariable (t : symbol_table_t) (name : String)
    (init : ℚ) : variable_t × symbol_table_t :=
  let id := t.m_state.length
  (⟨id⟩, ⟨t.m_names ++ [name], t.m_state ++ [init]⟩)

/-- `symbol_table_t::name`: `m_names[id]`.  Out-of-range ids read `""` (the
source guarantees ids are in range by construction). -/
def symbol_table_t.name (t : symbol_table_t) (id : Nat) : String :=
  t.m_names.getD id ""

/-- The text `print_visitor::visit(binary_t)` emits between the operands:
`+`, `-`, `*`, `/`; an `assign`-tagged binary matches no `case` and emits
nothing. -/
def opSym : operation_t → String
  | .plus => "+"
  | .minus => "-"
  | .mul => "*"
  | .div => "/"
  | .assign => ""

/-- The text `print_visitor::visit(assign_t)` emits between target and
value. -/
def assignSym : operation_t → String
  | .assign => "<<="
  | .plus => "+="
  | .minus => "-="
  | .mul => "*="
  | .div => "/="

/-- The prefix `print_visitor::visit(unary_t)` emits: only `minus` prints
`-`; `plus` and any unhandled tag print nothing. -/
def unarySym : operation_t → String
  | .minus => "-"
  | _ => ""

/-- `std::ostream << double` for the constant values this development
prints: an integral value is printed without a decimal point. -/
def renderConst (q : ℚ) : String :=
  if q.den = 1 then toString q.num else toString q

/-- `print_visitor::visit`, all overloads merged: flat infix text, no
parentheses, target of an `assign_t` printed by name. -/
def render : expr → symbol_table_t → String
  | .constant v, _ => renderConst v
  | .var id, tb => tb.name id
  | .unary op e, tb => unarySym op ++ render e tb
  | .binary op l r, tb => render l tb ++ opSym op ++ render r tb
  | .assign op tgt e, tb => tb.name tgt.m_id ++ assignSym op ++ render e tb

/-! Helper lemmas shared by several claims. -/

/-- Evaluating an assign-free tree leaves the state unchanged, whether or
not a division by zero is raised along the way. -/
lemma eval_snd_of_noAssign (t : expr) (s : state_t)
    (h : noAssign t = true) : (eval t s).2 = s := by
  induction t generalizing s with
  | constant v => simp [eval]
  | var id => simp [eval]
  | unary op e ih =>
    have he : noAssign e = true := by simpa [noAssign] using h
    cases op with
    | plus => simpa [eval] using ih s he
    | minus =>
      have hs := ih s he
      rcases h₁ : eval e s with ⟨r, s₁⟩
      rw [h₁] at hs
      cases r <;> simp_all [eval]
    | assign => simp [eval]
    | mul => simp [eval]
    | div => simp [eval]
  | binary op l r ihl ihr =>
    have hl : noAssign l = true := by
      have := h
      simp [noAssign, Bool.and_eq_true] at this
      exact this.1
    have hr : noAssign r = true := by
      have := h
      simp [noAssign, Bool.and_eq_true] at this
      exact this.2
    cases op with
    | assign => simp [eval]
    | div =>
      rcases h₁ : eval r s with ⟨rr, s₁⟩
      have hs₁ : s₁ = s := by simpa [h₁] using ihr s hr
      cases rr with
      | error err => simp [eval, h₁, hs₁]
      | ok vr =>
        by_cases hz : vr = 0
        · simp [eval, h₁, hs₁, hz]
        · rcases h₂ : eval l s₁ with ⟨rl, s₂⟩
          have hs₂ : s₂ = s := by
            have h₃ : s₂ = s₁ := by simpa [h₂] using ihl s₁ hl
            exact h₃.trans hs₁
          cases rl <;> simp [eval, h₁, h₂, hz, hs₂]
    | plus =>
      rcases h₁ : eval l s with ⟨rl, s₁⟩
      have hs₁ : s₁ = s := by simpa [h₁] using ihl s hl
      cases rl with
      | error err => simp [eval, h₁, hs₁]
      | ok vl =>
        rcases h₂ : eval r s₁ with ⟨rr, s₂⟩
        have hs₂ : s₂ = s := by
          have h₃ : s₂ = s₁ := by simpa [h₂] using ihr s₁ hr
          exact h₃.trans hs₁
        cases rr <;> simp [eval, h₁, h₂, hs₂]
    | minus =>
      rcases h₁ : eval l s with ⟨rl, s₁⟩
      have hs₁ : s₁ = s := by simpa [h₁] using ihl s hl
      cases rl with
      | error err => simp [eval, h₁, hs₁]
      | ok vl =>
        rcases h₂ : eval r s₁ with ⟨rr, s₂⟩
        have hs₂ : s₂ = s := by
          have h₃ : s₂ = s₁ := by simpa [h₂] using ihr s₁ hr
          exact h₃.trans hs₁
        cases rr <;> simp [eval, h₁, h₂, hs₂]
    | mul =>
      rcases h₁ : eval l s with ⟨rl, s₁⟩
      have hs₁ : s₁ = s := by simpa [h₁] using ihl s hl
      cases rl with
      | error err => simp [eval, h₁, hs₁]
      | ok vl =>
        rcases h₂ : eval r s₁ with ⟨rr, s₂⟩
        have hs₂ : s₂ = s := by
          have h₃ : s₂ = s₁ := by simpa [h₂] using ihr s₁ hr
          exact h₃.trans hs₁
        cases rr <;> simp [eval, h₁, h₂, hs₂]
  | assign op tgt e ih => simp [noAssign] at h

/-- Evaluating a tree whose tags the evaluator's `switch` statements all
handle never reaches the fall-off-the-end outcome. -/
lemma eval_fst_ne_unhandled (t : expr) (s : state_t)
    (h : wellTagged t = true) : (eval t s).1 ≠ .error .unhandledTag := by
  induction t generalizing s with
  | constant v => simp [eval]
  | var id => simp [eval]
  | unary op e ih =>
    cases op with
    | plus =>
      have he : wellTagged e = true := by simpa [wellTagged] using h
      simpa [eval] using ih s he
    | minus =>
      have he : wellTagged e = true := by simpa [wellTagged] using h
      have := ih s he
      rcases h₁ : eval e s with ⟨r, s₁⟩
      rw [h₁] at this
      cases r <;> simp_all [eval]
    | assign => simp [wellTagged] at h
    | mul => simp [wellTagged] at h
    | div => simp [wellTagged] at h
  | binary op l r ihl ihr =>
    have hl : wellTagged l = true := by
      cases op <;> simp [wellTagged, Bool.and_eq_true] at h <;> tauto
    have hr : wellTagged r = true := by
      cases op <;> simp [wellTagged, Bool.and_eq_true] at h <;> tauto
    cases op with
    | assign => simp [wellTagged] at h
    | div =>
      rcases h₁ : eval r s with ⟨rr, s₁⟩
      cases rr with
      | error err =>
        have := ihr s hr
        rw [h₁] at this
        simp only [eval, h₁]
        simpa using this
      | ok vr =>
        by_cases hz : vr = 0
        · simp [eval, h₁, hz]
        · rcases h₂ : eval l s₁ with ⟨rl, s₂⟩
          cases rl with
          | error err =>
            have := ihl s₁ hl
            rw [h₂] at this
            simp only [eval, h₁]
            simpa [hz, h₂] using this
          | ok vl => simp [eval, h₁, h₂, hz]
    | plus =>
      rcases h₁ : eval l s with ⟨rl, s₁⟩
      cases rl with
      | error err =>
        have := ihl s hl
        rw [h₁] at this
        simp only [eval, h₁]
        simpa using this
      | ok vl =>
        rcases h₂ : eval r s₁ with ⟨rr, s₂⟩
        cases rr with
        | error err =>
          have := ihr s₁ hr
          rw [h₂] at this
          simp only [eval, h₁]
          simpa [h₂] using this
        | ok vr => simp [eval, h₁, h₂]
    | minus =>
      rcases h₁ : eval l s with ⟨rl, s₁⟩
      cases rl with
      | error err =>
        have := ihl s hl
        rw [h₁] at this
        simp only [eval, h₁]
        simpa using this
      | ok vl =>
        rcases h₂ : eval r s₁ with ⟨rr, s₂⟩
        cases rr with
        | error err =>
          have := ihr s₁ hr
          rw [h₂] at this
          simp only [eval, h₁]
          simpa [h₂] using this
        | ok vr => simp [eval, h₁, h₂]
    | mul =>
      rcases h₁ : eval l s with ⟨rl, s₁⟩
      cases rl with
      | error err =>
        have := ihl s hl
        rw [h₁] at this
        simp only [eval, h₁]
        simpa using this
      | ok vl =>
        rcases h₂ : eval r s₁ with ⟨rr, s₂⟩
        cases rr with
        | error err =>
          have := ihr s₁ hr
          rw [h₂] at this
          simp only [eval, h₁]
          simpa [h₂] using this
        | ok vr => simp [eval, h₁, h₂]
  | assign op tgt e ih =>
    have he : wellTagged e = true := by simpa [wellTagged] using h
    rcases h₁ : eval e s with ⟨r, s₁⟩
    cases r with
    | error err =>
      have := ih s he
      rw [h₁] at this
      simp only [eval, h₁]
      simpa using this
    | ok v => cases op <;> simp [eval, h₁]

/-! Claim theorems. -/

/-- Claim C1, counterexample: a compound division-assignment whose
right-hand side evaluates to exactly `0` does NOT fail with
`DivisionByZero` — `eval_visitor_t::visit(assign_t)` performs the division
unchecked, unlike `visit(binary_t)`. -/
theorem C1_counterexample :
    (eval (.assign .div ⟨0⟩ (.constant 0)) [(1 : ℚ)]).1 ≠
      .error .divisionByZero := by
  simp [eval]

/-- Claim C1, amended: compound division-assignment performs no zero check
at all — for any evaluated right-hand value `v`, including `v = 0`, it
stores and returns the raw quotient of the current slot value by `v` and
never raises `DivisionByZero` at the assignment node. -/
theorem C1_div_assign_unchecked (tid : Nat) (e : expr) (s s₁ : state_t)
    (v : ℚ) (h : eval e s = (.ok v, s₁)) :
    eval (.assign .div ⟨tid⟩ e) s =
      (.ok (s₁.getD tid 0 / v), s₁.set tid (s₁.getD tid 0 / v)) ∧
    (eval (.assign .div ⟨tid⟩ e) s).1 ≠ .error .divisionByZero := by
  constructor <;> simp [eval, h]

/-- Witness for C1's amended theorem at a concrete input with a zero
divisor. -/
theorem C1_div_assign_unchecked_witness :
    eval (.assign .div ⟨0⟩ (.constant 0)) [(1 : ℚ)] =
      (.ok (([(1 : ℚ)].getD 0 0) / 0),
       [(1 : ℚ)].set 0 (([(1 : ℚ)].getD 0 0) / 0)) ∧
    (eval (.assign .div ⟨0⟩ (.constant 0)) [(1 : ℚ)]).1 ≠
      .error .divisionByZero :=
  C1_div_assign_unchecked 0 (.constant 0) [(1 : ℚ)] [(1 : ℚ)] 0 rfl

/-- Claim C2, counterexample: `visit(binary_t)` does not evaluate the left
operand first for `div` — the source sequences `visit(m_second)` before the
zero test and before `visit(m_first)`.  With left operand `v <<= 2` and
right operand `v` over environment `[0]`, the code raises `DivisionByZero`
(right read first, still `0`), while left-first evaluation would store `2`
and return `1`. -/
theorem C2_counterexample :
    eval (.binary .div (.assign .assign ⟨0⟩ (.constant 2)) (.var 0))
        [(0 : ℚ)] = (.error .divisionByZero, [(0 : ℚ)]) ∧
    seqLR .div (.assign .assign ⟨0⟩ (.constant 2)) (.var 0) [(0 : ℚ)] =
      (.ok 1, [(2 : ℚ)]) ∧
    eval (.binary .div (.assign .assign ⟨0⟩ (.constant 2)) (.var 0))
        [(0 : ℚ)] ≠
      seqLR .div (.assign .assign ⟨0⟩ (.constant 2)) (.var 0) [(0 : ℚ)] := by
  refine ⟨?_, ?_, ?_⟩ <;> simp [eval, seqLR]

/-- Claim C2, amended: for `plus`, `minus` and `mul` Binary nodes the left
operand is evaluated strictly before the right one, and result and final
environment are those of the left-then-right composition; for `div` the
source evaluates the right operand first (see the counterexample). -/
theorem C2_binary_left_then_right (op : operation_t) (l r : expr)
    (s : state_t) (hop : op = .plus ∨ op = .minus ∨ op = .mul) :
    eval (.binary op l r) s = seqLR op l r s := by
  rcases hop with h | h | h <;> subst h <;>
  · rcases h₁ : eval l s with ⟨rl, s₁⟩
    cases rl with
    | error err => simp [eval, seqLR, h₁]
    | ok vl =>
      rcases h₂ : eval r s₁ with ⟨rr, s₂⟩
      cases rr <;> simp [eval, seqLR, h₁, h₂]

/-- Witness for C2's amended theorem. -/
theorem C2_binary_left_then_right_witness :
    eval (.binary .plus (.assign .assign ⟨0⟩ (.constant 2)) (.var 0))
        [(0 : ℚ)] =
      seqLR .plus (.assign .assign ⟨0⟩ (.constant 2)) (.var 0) [(0 : ℚ)] :=
  C2_binary_left_then_right .plus (.assign .assign ⟨0⟩ (.constant 2))
    (.var 0) [(0 : ℚ)] (Or.inl rfl)

/-- Claim C3: if the right-hand operand of a Binary division evaluates to
exactly `0`, the whole evaluation fails with `DivisionByZero` (the left
operand is not even visited: the final state is the one the right operand
left), and an enclosing operation propagates the error instead of being
partially applied. -/
theorem C3_binary_div_zero_raises (l r : expr) (s s₁ : state_t)
    (h : eval r s = (.ok 0, s₁)) :
    eval (.binary .div l r) s = (.error .divisionByZero, s₁) ∧
    ∀ x, eval (.binary .plus (.binary .div l r) x) s =
      (.error .divisionByZero, s₁) := by
  constructor
  · simp [eval, h]
  · intro x
    simp [eval, h]

/-- Witness for C3 at `1 / 0` over the empty environment. -/
theorem C3_binary_div_zero_raises_witness :
    eval (.binary .div (.constant 1) (.constant 0)) [] =
      (.error .divisionByZero, []) ∧
    ∀ x, eval (.binary .plus
        (.binary .div (.constant 1) (.constant 0)) x) [] =
      (.error .divisionByZero, []) :=
  C3_binary_div_zero_raises (.constant 1) (.constant 0) [] [] rfl

/-- Claim C4: evaluating a tree that contains no Assign node leaves the
environment element-wise identical to its state before the call. -/
theorem C4_noAssign_preserves_state (t : expr) (s : state_t)
    (h : noAssign t = true) : (eval t s).2 = s :=
  eval_snd_of_noAssign t s h

/-- Witness for C4. -/
theorem C4_noAssign_preserves_state_witness :
    (eval (.binary .plus (.constant 1) (.var 0)) [(5 : ℚ)]).2 = [(5 : ℚ)] :=
  C4_noAssign_preserves_state (.binary .plus (.constant 1) (.var 0))
    [(5 : ℚ)] rfl

/-- Claim C5, counterexample: the slot is read AFTER the value has been
evaluated, so when the value expression itself assigns to the target the
result is not `old_env[v.id] + evaluate(e, env)`.  For `v += (v <<= 5)`
over `[1]`: the inner assignment sets the slot to `5`, the compound update
then yields `10`, not `1 + 5 = 6`. -/
theorem C5_counterexample :
    evalV (.assign .assign ⟨0⟩ (.constant 5)) [(1 : ℚ)] = .ok 5 ∧
    eval (.assign .plus ⟨0⟩ (.assign .assign ⟨0⟩ (.constant 5)))
        [(1 : ℚ)] = (.ok 10, [(10 : ℚ)]) ∧
    (10 : ℚ) ≠ 1 + 5 := by
  refine ⟨by simp [evalV, eval], by norm_num [eval], by norm_num⟩

/-- Claim C5, amended: `visit(assign_t)` first evaluates the value, then
reads the slot from the environment the value's evaluation produced,
updates it according to the tag (overwrite for `assign`, combine for
`plus`/`minus`/`mul`/`div`) and returns the new slot value; when the value
expression does not touch the slot this coincides with the claimed
`old_env[v.id] ⊙ evaluate(e, env)`. -/
theorem C5_assign_read_modify_write (tid : Nat) (e : expr) (s s₁ : state_t)
    (v : ℚ) (h : eval e s = (.ok v, s₁)) :
    eval (.assign .assign ⟨tid⟩ e) s = (.ok v, s₁.set tid v) ∧
    eval (.assign .plus ⟨tid⟩ e) s =
      (.ok (s₁.getD tid 0 + v), s₁.set tid (s₁.getD tid 0 + v)) ∧
    eval (.assign .minus ⟨tid⟩ e) s =
      (.ok (s₁.getD tid 0 - v), s₁.set tid (s₁.getD tid 0 - v)) ∧
    eval (.assign .mul ⟨tid⟩ e) s =
      (.ok (s₁.getD tid 0 * v), s₁.set tid (s₁.getD tid 0 * v)) ∧
    eval (.assign .div ⟨tid⟩ e) s =
      (.ok (s₁.getD tid 0 / v), s₁.set tid (s₁.getD tid 0 / v)) := by
  refine ⟨?_, ?_, ?_, ?_, ?_⟩ <;> simp [eval, h]

/-- Witness for C5's amended theorem. -/
theorem C5_assign_read_modify_write_witness :
    eval (.assign .assign ⟨0⟩ (.constant 2)) [(3 : ℚ)] =
      (.ok 2, [(3 : ℚ)].set 0 2) ∧
    eval (.assign .plus ⟨0⟩ (.constant 2)) [(3 : ℚ)] =
      (.ok ([(3 : ℚ)].getD 0 0 + 2),
       [(3 : ℚ)].set 0 ([(3 : ℚ)].getD 0 0 + 2)) ∧
    eval (.assign .minus ⟨0⟩ (.constant 2)) [(3 : ℚ)] =
      (.ok ([(3 : ℚ)].getD 0 0 - 2),
       [(3 : ℚ)].set 0 ([(3 : ℚ)].getD 0 0 - 2)) ∧
    eval (.assign .mul ⟨0⟩ (.constant 2)) [(3 : ℚ)] =
      (.ok ([(3 : ℚ)].getD 0 0 * 2),
       [(3 : ℚ)].set 0 ([(3 : ℚ)].getD 0 0 * 2)) ∧
    eval (.assign .div ⟨0⟩ (.constant 2)) [(3 : ℚ)] =
      (.ok ([(3 : ℚ)].getD 0 0 / 2),
       [(3 : ℚ)].set 0 ([(3 : ℚ)].getD 0 0 / 2)) :=
  C5_assign_read_modify_write 0 (.constant 2) [(3 : ℚ)] [(3 : ℚ)] 2 rfl

/-- Claim C6, counterexample: the homomorphism law fails when an operand
carries a side effect: with `a = (v <<= 1)` and `b = v` over `[0]`, the
compound expression yields `2` (the assignment is visible to `b`), while
`evaluate(a, env) + evaluate(b, env)` over the same starting environment is
`1 + 0 = 1`. -/
theorem C6_counterexample :
    evalV (.assign .assign ⟨0⟩ (.constant 1)) [(0 : ℚ)] = .ok 1 ∧
    evalV (.var 0) [(0 : ℚ)] = .ok 0 ∧
    evalV (.binary .plus (.assign .assign ⟨0⟩ (.constant 1)) (.var 0))
        [(0 : ℚ)] = .ok 2 ∧
    (2 : ℚ) ≠ 1 + 0 := by
  refine ⟨by simp [evalV, eval], by simp [evalV, eval],
    by norm_num [evalV, eval], by norm_num⟩

/-- Claim C6, amended: for trees `a`, `b` containing no Assign node the
laws hold over one and the same environment —
`evaluate(a ⊙ b, env) = evaluate(a, env) ⊙ evaluate(b, env)` for `+`, `-`,
`*` (errors propagating left first), and for `/` whenever the divisor
evaluates to a nonzero value. -/
theorem C6_eval_homomorphism (a b : expr) (s : state_t)
    (ha : noAssign a = true) (hb : noAssign b = true) :
    evalV (.binary .plus a b) s =
      (evalV a s).bind (fun x => (evalV b s).map (fun y => x + y)) ∧
    evalV (.binary .minus a b) s =
      (evalV a s).bind (fun x => (evalV b s).map (fun y => x - y)) ∧
    evalV (.binary .mul a b) s =
      (evalV a s).bind (fun x => (evalV b s).map (fun y => x * y)) ∧
    ∀ vb, evalV b s = .ok vb → vb ≠ 0 →
      evalV (.binary .div a b) s = (evalV a s).map (fun x => x / vb) := by
  have hfa := eval_snd_of_noAssign a s ha
  have hfb := eval_snd_of_noAssign b s hb
  rcases h₁ : eval a s with ⟨ra, s₁⟩
  rw [h₁] at hfa
  have hsa : s₁ = s := hfa
  rcases h₂ : eval b s with ⟨rb, s₂⟩
  rw [h₂] at hfb
  have hsb : s₂ = s := hfb
  refine ⟨?_, ?_, ?_, ?_⟩
  · cases ra with
    | error err => simp [evalV, eval, h₁, Except.bind]
    | ok va =>
      cases rb <;> simp [evalV, eval, h₁, h₂, hsa, Except.bind, Except.map]
  · cases ra with
    | error err => simp [evalV, eval, h₁, Except.bind]
    | ok va =>
      cases rb <;> simp [evalV, eval, h₁, h₂, hsa, Except.bind, Except.map]
  · cases ra with
    | error err => simp [evalV, eval, h₁, Except.bind]
    | ok va =>
      cases rb <;> simp [evalV, eval, h₁, h₂, hsa, Except.bind, Except.map]
  · intro vb hvb hne
    cases rb with
    | error err => simp [evalV, h₂] at hvb
    | ok vb' =>
      have hvb' : vb' = vb := by simpa [evalV, h₂] using hvb
      subst hvb'
      cases ra <;> simp [evalV, eval, h₁, h₂, hsb, hne, Except.map]

/-- Witness for C6's amended theorem: `6 / 3` over the empty
environment. -/
theorem C6_eval_homomorphism_witness :
    evalV (.binary .div (.constant 6) (.constant 3)) [] =
      (evalV (.constant 6) []).map (fun x => x / 3) :=
  (C6_eval_homomorphism (.constant 6) (.constant 3) [] rfl rfl).2.2.2 3 rfl
    (by norm_num)

/-- Claim C7: `symbol_table_t` keeps `m_names` and `m_state` index-aligned
across `variable` (here `newVariable`); the returned `variable_t` carries
the next index; immediately after registration the variable evaluates to
its initial value and `name` returns the stored name. -/
theorem C7_symbol_table_aligned (t : symbol_table_t) (n : String) (i : ℚ)
    (h : t.m_names.length = t.m_state.length) :
    (t.newVariable n i).2.m_names.length =
      (t.newVariable n i).2.m_state.length ∧
    (t.newVariable n i).1.m_id = t.m_state.length ∧
    evalV (.var (t.newVariable n i).1.m_id) (t.newVariable n i).2.m_state =
      .ok i ∧
    (t.newVariable n i).2.name (t.newVariable n i).1.m_id = n := by
  refine ⟨by simp [symbol_table_t.newVariable, h], rfl, ?_, ?_⟩
  · simp [evalV, eval, symbol_table_t.newVariable, List.getD,
      List.getElem?_concat_length]
  · simp [symbol_table_t.name, symbol_table_t.newVariable, List.getD, ← h,
      List.getElem?_concat_length]

/-- Witness for C7 on the empty table. -/
theorem C7_symbol_table_aligned_witness :
    ((symbol_table_t.mk [] []).newVariable "x" 7).2.m_names.length =
      ((symbol_table_t.mk [] []).newVariable "x" 7).2.m_state.length ∧
    ((symbol_table_t.mk [] []).newVariable "x" 7).1.m_id =
      (symbol_table_t.mk [] []).m_state.length ∧
    evalV (.var ((symbol_table_t.mk [] []).newVariable "x" 7).1.m_id)
        ((symbol_table_t.mk [] []).newVariable "x" 7).2.m_state = .ok 7 ∧
    ((symbol_table_t.mk [] []).newVariable "x" 7).2.name
        ((symbol_table_t.mk [] []).newVariable "x" 7).1.m_id = "x" :=
  C7_symbol_table_aligned (symbol_table_t.mk [] []) "x" 7 rfl

/-- The table the printing tests use: `a = 2`, then `b = 3`. -/
def demo_table : symbol_table_t :=
  ((symbol_table_t.mk [] []).newVariable "a" 2).2.newVariable "b" 3 |>.2

/-- The `variable_t` handle for `a` (index 0). -/
def demo_a : variable_t := ((symbol_table_t.mk [] []).newVariable "a" 2).1

/-- The `variable_t` handle for `b` (index 1). -/
def demo_b : variable_t :=
  (((symbol_table_t.mk [] []).newVariable "a" 2).2.newVariable "b" 3).1

/-- Claim C8: rendering is a total pure function producing flat infix
text — Unary `plus` renders as its operand alone, Unary `minus` prefixes
`-`, Binary nodes render left, symbol, right with no parentheses, Assign
nodes render the target name, the assignment symbol and the value; on the
table with `a`, `b`: `a+b`, `a+=b`, `a<<=b`, `a+2`. -/
theorem C8_render_flat_infix :
    (∀ (tb : symbol_table_t) (e : expr),
      render (.unary .plus e) tb = render e tb) ∧
    (∀ (tb : symbol_table_t) (e : expr),
      render (.unary .minus e) tb = "-" ++ render e tb) ∧
    (∀ (tb : symbol_table_t) (l r : expr),
      render (.binary .plus l r) tb = render l tb ++ "+" ++ render r tb ∧
      render (.binary .minus l r) tb = render l tb ++ "-" ++ render r tb ∧
      render (.binary .mul l r) tb = render l tb ++ "*" ++ render r tb ∧
      render (.binary .div l r) tb = render l tb ++ "/" ++ render r tb) ∧
    (∀ (tb : symbol_table_t) (tgt : variable_t) (e : expr),
      render (.assign .assign tgt e) tb =
        tb.name tgt.m_id ++ "<<=" ++ render e tb ∧
      render (.assign .plus tgt e) tb =
        tb.name tgt.m_id ++ "+=" ++ render e tb ∧
      render (.assign .minus tgt e) tb =
        tb.name tgt.m_id ++ "-=" ++ render e tb ∧
      render (.assign .mul tgt e) tb =
        tb.name tgt.m_id ++ "*=" ++ render e tb ∧
      render (.assign .div tgt e) tb =
        tb.name tgt.m_id ++ "/=" ++ render e tb) ∧
    render (.binary .plus (.var demo_a.m_id) (.var demo_b.m_id)) demo_table
      = "a+b" ∧
    render (.assign .plus demo_a (.var demo_b.m_id)) demo_table = "a+=b" ∧
    render (.assign .assign demo_a (.var demo_b.m_id)) demo_table
      = "a<<=b" ∧
    render (.binary .plus (.var demo_a.m_id) (.constant 2)) demo_table
      = "a+2" := by
  refine ⟨fun tb e => ?_, fun tb e => ?_, fun tb l r => ?_, fun tb tgt e => ?_,
    rfl, rfl, rfl, rfl⟩ <;>
    simp [render, unarySym, opSym, assignSym]

/-- Claim C9: the divisor test of Binary division is exact equality with
`0`, with no tolerance: a right-hand side evaluating to negated zero raises
`DivisionByZero` (it compares equal to zero), while any nonzero right-hand
value, however small, does not raise there and the quotient is returned. -/
theorem C9_exact_zero_test (l r : expr) (s s₁ : state_t) (vr : ℚ)
    (h : eval r s = (.ok vr, s₁)) (hvr : vr ≠ 0) :
    eval (.binary .div l (.unary .minus (.constant 0))) s =
      (.error .divisionByZero, s) ∧
    ∀ vl s₂, eval l s₁ = (.ok vl, s₂) →
      eval (.binary .div l r) s = (.ok (vl / vr), s₂) := by
  constructor
  · simp [eval]
  · intro vl s₂ h₂
    simp [eval, h, hvr, h₂]

/-- Witness for C9: `6 / -0` raises; `6 / 3` yields `2`. -/
theorem C9_exact_zero_test_witness :
    eval (.binary .div (.constant 6) (.unary .minus (.constant 0))) [] =
      (.error .divisionByZero, []) ∧
    eval (.binary .div (.constant 6) (.constant 3)) [] = (.ok 2, []) := by
  have h := C9_exact_zero_test (.constant 6) (.constant 3) [] [] 3 rfl
    (by norm_num)
  refine ⟨h.1, ?_⟩
  have h₂ := h.2 6 [] rfl
  norm_num at h₂
  exact h₂

/-- Claim C10: the node constructors accept any `operation_t` tag — a
unary node built directly with `mul` is a legal tree, on which evaluation
reaches the unhandled-tag outcome — while for trees whose unary tags are
`plus`/`minus` and binary tags arithmetic (exactly what the builder
operators mint, the unary builders producing `plus`/`minus` in particular)
the unhandled-tag branch is unreachable. -/
theorem C10_builder_tags_total (t : expr) (s : state_t)
    (ht : wellTagged t = true) :
    eval (.unary .mul (.constant 1)) s = (.error .unhandledTag, s) ∧
    (eval t s).1 ≠ .error .unhandledTag ∧
    wellTagged (unary_plus t) = true ∧
    wellTagged (unary_minus t) = true := by
  refine ⟨by simp [eval], eval_fst_ne_unhandled t s ht, ?_, ?_⟩ <;>
    simp [wellTagged, unary_plus, unary_minus, ht]

/-- Witness for C10. -/
theorem C10_builder_tags_total_witness :
    eval (.unary .mul (.constant 1)) [] = (.error .unhandledTag, []) ∧
    (eval (.binary .plus (.constant 1) (.var 0)) []).1 ≠
      .error .unhandledTag ∧
    wellTagged (unary_plus (.binary .plus (.constant 1) (.var 0))) = true ∧
    wellTagged (unary_minus (.binary .plus (.constant 1) (.var 0))) = true :=
  C10_builder_tags_total (.binary .plus (.constant 1) (.var 0)) [] rfl
